import Mathlib

/-!
Verification of the Auction Room Engine of the AUCTIONSYSTEM-BACKEND
repository (the multi-room socket server in `src/unnamed/part_000`,
`getRoomState` at lines 27-233 and the socket handlers at lines 320-410).

The engine keeps one in-memory `RoomState` per auction identifier and
mutates it in response to socket actions (`start_player`, `place_bid`,
`undo_bid`, `toggle_pause`, `sell_player`, `unsell_player`,
`reset_round`), broadcasting an `auction_state` snapshot on every
applied mutation and issuing persistence writes at the sale/unsale
commit points.

Each handler is embedded as a pure function `RoomState → RoomState × List Effect`:
the returned state is the post-action room state and the effect list
records, in order, the synchronous `auction_state` broadcast and any
persistence request the handler issues.  The asynchronous `data_update`
signal emitted after a persistence promise resolves is outside the
synchronous state transition and is not part of the effect list.
-/

namespace AuctionSystem

/-- Opaque team identifier (a MongoDB ObjectId string in the source). -/
abbrev TeamId := String

/-- Opaque player identifier (a MongoDB ObjectId string in the source). -/
abbrev PlayerId := String

/-- Opaque auction identifier, the key of the room registry. -/
abbrev AuctionId := String

/-- Room status values used by the source: the handlers assign the
string literals IDLE, ACTIVE, PAUSED, SOLD and UNSOLD. -/
inductive Status where
  | IDLE
  | ACTIVE
  | PAUSED
  | SOLD
  | UNSOLD
deriving DecidableEq, Repr

/-- One undo frame, as pushed by `place_bid`:
`{ bid: state.currentBid, leader: state.leadingTeamId }`. -/
structure Frame where
  bid : Int
  leader : Option TeamId
deriving DecidableEq, Repr

/-- The per-room live state created by `getRoomState`
(`src/unnamed/part_000` lines 29-230): `currentBid`, `leadingTeamId`,
`currentPlayerId`, `status`, `bidHistory`.  `bidHistory` is a stack;
the source uses the end of a JS array as the top, here the head of the
list is the top. -/
structure RoomState where
  currentBid : Int
  leadingTeamId : Option TeamId
  currentPlayerId : Option PlayerId
  status : Status
  bidHistory : List Frame
deriving DecidableEq, Repr

/-- Observable side effects a handler issues synchronously:
an `auction_state` broadcast of the post-action room state, or a
persistence request (`Player.findByIdAndUpdate` / `Team.findByIdAndUpdate`
at the sale and unsale commit points). -/
inductive Effect where
  | auctionState (room : RoomState)
  | persistSold (playerId : PlayerId) (teamId : TeamId) (price : Int)
  | persistUnsold (playerId : PlayerId)
deriving DecidableEq, Repr

/-- The baseline room state installed by `getRoomState` when an auction
identifier is first referenced (lines 29-230):
`{ currentBid: 0, leadingTeamId: null, currentPlayerId: null, status: IDLE, bidHistory: [] }`. -/
def initialRoomState : RoomState :=
  { currentBid := 0
    leadingTeamId := none
    currentPlayerId := none
    status := Status.IDLE
    bidHistory := [] }

/-- `start_player` handler (lines 330-338): overwrites the round fields
and clears the history, always. -/
def start_player (s : RoomState) (playerId : PlayerId) (basePrice : Int) :
    RoomState × List Effect :=
  let s' : RoomState :=
    { s with
      currentBid := basePrice
      leadingTeamId := none
      currentPlayerId := some playerId
      status := Status.ACTIVE
      bidHistory := [] }
  (s', [Effect.auctionState s'])

/-- The update block of `place_bid` once validation has passed
(lines 349-354): push `{ bid: currentBid, leader: leadingTeamId }` onto
`bidHistory`, then set `currentBid = amount`, `leadingTeamId = teamId`
and broadcast. -/
def acceptBid (s : RoomState) (teamId : Option TeamId) (amount : Int) :
    RoomState × List Effect :=
  let s' : RoomState :=
    { s with
      bidHistory := { bid := s.currentBid, leader := s.leadingTeamId } :: s.bidHistory
      currentBid := amount
      leadingTeamId := teamId }
  (s', [Effect.auctionState s'])

/-- `place_bid` handler (lines 340-355).  Validation is by amount only:
with no leader (`leadingTeamId === null`) the bid is dropped when
`amount < currentBid`; with a leader it is dropped when
`amount <= currentBid`.  The handler never reads `status`.  A dropped
bid returns early: no state change and no broadcast. -/
def place_bid (s : RoomState) (teamId : Option TeamId) (amount : Int) :
    RoomState × List Effect :=
  match s.leadingTeamId with
  | none =>
      if amount < s.currentBid then (s, [])
      else acceptBid s teamId amount
  | some _ =>
      if amount ≤ s.currentBid then (s, [])
      else acceptBid s teamId amount

/-- `undo_bid` handler (lines 357-365): when `bidHistory` is non-empty,
pop the last frame, restore `currentBid`/`leadingTeamId` from it and
broadcast; otherwise do nothing. -/
def undo_bid (s : RoomState) : RoomState × List Effect :=
  match s.bidHistory with
  | [] => (s, [])
  | prev :: rest =>
      let s' : RoomState :=
        { s with
          bidHistory := rest
          currentBid := prev.bid
          leadingTeamId := prev.leader }
      (s', [Effect.auctionState s'])

/-- `toggle_pause` handler (lines 367-371):
`state.status = state.status === 'PAUSED' ? 'ACTIVE' : 'PAUSED'`,
then broadcast.  Any status other than PAUSED becomes PAUSED. -/
def toggle_pause (s : RoomState) : RoomState × List Effect :=
  let s' : RoomState :=
    { s with
      status := if s.status = Status.PAUSED then Status.ACTIVE else Status.PAUSED }
  (s', [Effect.auctionState s'])

/-- `sell_player` handler (lines 373-390): guarded by
`if (currentPlayerId && leadingTeamId)` (both ids truthy; the ids are
opaque ObjectId strings, so truthiness is presence).  When the guard
holds it sets `status = 'SOLD'`, clears `bidHistory`, broadcasts, and
issues the persistence writes (mark the player sold to the leader at
`currentBid`; credit the team's spend and roster).  Otherwise nothing
happens. -/
def sell_player (s : RoomState) : RoomState × List Effect :=
  match s.currentPlayerId, s.leadingTeamId with
  | some playerId, some teamId =>
      let s' : RoomState := { s with status := Status.SOLD, bidHistory := [] }
      (s', [Effect.auctionState s', Effect.persistSold playerId teamId s.currentBid])
  | _, _ => (s, [])

/-- `unsell_player` handler (lines 392-400): guarded by
`if (state.currentPlayerId)`; sets `status = 'UNSOLD'`, broadcasts, and
issues the persistence write marking the player unsold. -/
def unsell_player (s : RoomState) : RoomState × List Effect :=
  match s.currentPlayerId with
  | some playerId =>
      let s' : RoomState := { s with status := Status.UNSOLD }
      (s', [Effect.auctionState s', Effect.persistUnsold playerId])
  | none => (s, [])

/-- `reset_round` handler (lines 402-409): sets `currentBid = 0`,
`leadingTeamId = null`, `currentPlayerId = null`, `status = 'IDLE'`
and broadcasts.  Note: the handler does not assign `bidHistory`. -/
def reset_round (s : RoomState) : RoomState × List Effect :=
  let s' : RoomState :=
    { s with
      currentBid := 0
      leadingTeamId := none
      currentPlayerId := none
      status := Status.IDLE }
  (s', [Effect.auctionState s'])

/-- The engine actions, i.e. the socket events the server handles for a
room (payloads per the handlers above). -/
inductive Action where
  | start_player (playerId : PlayerId) (basePrice : Int)
  | place_bid (teamId : Option TeamId) (amount : Int)
  | undo_bid
  | toggle_pause
  | sell_player
  | unsell_player
  | reset_round
deriving DecidableEq, Repr

/-- Dispatch an action to its handler. -/
def applyAction (s : RoomState) : Action → RoomState × List Effect
  | Action.start_player playerId basePrice => start_player s playerId basePrice
  | Action.place_bid teamId amount => place_bid s teamId amount
  | Action.undo_bid => undo_bid s
  | Action.toggle_pause => toggle_pause s
  | Action.sell_player => sell_player s
  | Action.unsell_player => unsell_player s
  | Action.reset_round => reset_round s

/-- An action's monetary input is non-negative (`basePrice` for
`start_player`, `amount` for `place_bid`; other actions carry none). -/
def Action.nonnegInputs : Action → Bool
  | Action.start_player _ basePrice => decide (0 ≤ basePrice)
  | Action.place_bid _ amount => decide (0 ≤ amount)
  | _ => true

/-- Run a sequence of actions on one room, keeping only the states. -/
def runActions (s : RoomState) (acts : List Action) : RoomState :=
  acts.foldl (fun s a => (applyAction s a).1) s

/-- The room registry `auctionRooms`: a map from auction identifier to
its room state, lazily filled with `initialRoomState`.  Modelled as a
total function whose value at a never-touched identifier is the
baseline that `getRoomState` would create. -/
abbrev Registry := AuctionId → RoomState

/-- `getRoomState` (lines 27-233): look up the room, which is the
baseline at a fresh identifier. -/
def getRoomState (rooms : Registry) (auctionId : AuctionId) : RoomState :=
  rooms auctionId

/-- The registry with no room ever touched. -/
def emptyRegistry : Registry := fun _ => initialRoomState

/-- Apply an action tagged with an auction identifier: the handler
resolves its room through `getRoomState` and mutates only that room. -/
def applyTagged (rooms : Registry) (auctionId : AuctionId) (a : Action) : Registry :=
  fun id =>
    if id = auctionId then (applyAction (getRoomState rooms auctionId) a).1
    else rooms id

/-- Run an interleaved sequence of tagged actions on the registry. -/
def runTagged (rooms : Registry) : List (AuctionId × Action) → Registry
  | [] => rooms
  | (id, a) :: rest => runTagged (applyTagged rooms id a) rest

/-- The amount validation of `place_bid`, as a predicate: a bid is
dropped when `amount < currentBid` with no leader, or
`amount ≤ currentBid` with a leader. -/
def bidRejected (s : RoomState) (amount : Int) : Bool :=
  match s.leadingTeamId with
  | none => decide (amount < s.currentBid)
  | some _ => decide (amount ≤ s.currentBid)

/-- A paused room with no round running, used as a concrete test state. -/
def pausedRoom : RoomState :=
  { currentBid := 0
    leadingTeamId := none
    currentPlayerId := none
    status := Status.PAUSED
    bidHistory := [] }

/-- An active round with a leader, used as a concrete test state. -/
def activeRoom : RoomState :=
  { currentBid := 100
    leadingTeamId := some "A"
    currentPlayerId := some "p"
    status := Status.ACTIVE
    bidHistory := [] }

/-- An active round carrying one undo frame, used as a concrete test state. -/
def staleHistoryRoom : RoomState :=
  { currentBid := 100
    leadingTeamId := some "A"
    currentPlayerId := some "p"
    status := Status.ACTIVE
    bidHistory := [{ bid := 50, leader := some "B" }] }

/-- The room right after `start_player(p, 100)` on a fresh room: ACTIVE,
base price standing, no leader yet. -/
def openRoom : RoomState := (start_player initialRoomState "p" 100).1

/-- Run a sequence of `place_bid` calls carrying non-null team
identifiers (each pair is the `teamId` and `amount` of one call),
keeping only the room states. -/
def runBids (s : RoomState) (bids : List (TeamId × Int)) : RoomState :=
  bids.foldl (fun s b => (place_bid s (some b.1) b.2).1) s

/-- Whether at least one bid of the sequence is accepted when the
sequence is run from `s` — acceptance of a call being observable as its
non-empty broadcast. -/
def acceptedDuring (s : RoomState) : List (TeamId × Int) → Bool
  | [] => false
  | b :: rest =>
      decide ((place_bid s (some b.1) b.2).2 ≠ []) ||
        acceptedDuring (place_bid s (some b.1) b.2).1 rest

/-- C1 counterexample: on a PAUSED room, `place_bid` is not rejected —
the bid is accepted, `currentBid` changes and an `auction_state`
broadcast is emitted, while the status stays PAUSED. -/
theorem place_bid_paused_accepted :
    pausedRoom.status = Status.PAUSED ∧
    (place_bid pausedRoom (some "T") 5).1.currentBid = 5 ∧
    (place_bid pausedRoom (some "T") 5).1.status = Status.PAUSED ∧
    (place_bid pausedRoom (some "T") 5).2 ≠ [] := by
  decide

/-- C1 (amended): `place_bid` never consults `status`.  On a room whose
status is not ACTIVE, a bid failing the amount validation is rejected
silently (state unchanged, no broadcast), and a bid passing the amount
validation is accepted anyway: `currentBid` becomes the amount, the
status is untouched, and an `auction_state` broadcast is emitted. -/
theorem place_bid_ignores_status (s : RoomState) (t : Option TeamId) (amount : Int)
    (h : s.status ≠ Status.ACTIVE) :
    (bidRejected s amount = true → place_bid s t amount = (s, [])) ∧
    (bidRejected s amount = false →
      (place_bid s t amount).1.currentBid = amount ∧
      (place_bid s t amount).1.status = s.status ∧
      (place_bid s t amount).2 = [Effect.auctionState (place_bid s t amount).1]) := by
  obtain ⟨cb, lt, cp, st, hist⟩ := s
  cases lt <;>
    simp only [place_bid, bidRejected, acceptBid, decide_eq_true_eq, decide_eq_false_iff_not] <;>
    constructor <;> intro hcond <;> split_ifs <;> simp_all

/-- Witness for `place_bid_ignores_status` at the concrete PAUSED room. -/
theorem place_bid_ignores_status_witness :
    pausedRoom.status ≠ Status.ACTIVE ∧
    (bidRejected pausedRoom 5 = false →
      (place_bid pausedRoom (some "T") 5).1.currentBid = 5 ∧
      (place_bid pausedRoom (some "T") 5).1.status = pausedRoom.status ∧
      (place_bid pausedRoom (some "T") 5).2 =
        [Effect.auctionState (place_bid pausedRoom (some "T") 5).1]) :=
  ⟨by decide, (place_bid_ignores_status pausedRoom (some "T") 5 (by decide)).2⟩

/-- C2 counterexample: `reset_round` leaves `bidHistory` as it was, so
after a reset on a room carrying an undo frame the history is still
non-empty and `undo_bid` is not a no-op: it pops the surviving frame,
sets `currentBid` to 50 and broadcasts. -/
theorem reset_round_keeps_history :
    (reset_round staleHistoryRoom).1.bidHistory = [{ bid := 50, leader := some "B" }] ∧
    (undo_bid (reset_round staleHistoryRoom).1).1.currentBid = 50 ∧
    (undo_bid (reset_round staleHistoryRoom).1).2 ≠ [] := by
  decide

/-- C2 (amended): `reset_round` sets `currentBid = 0`,
`leadingTeamId = null`, `currentPlayerId = null` and `status = IDLE` and
broadcasts, but it does not clear `bidHistory`: the history survives the
reset unchanged. -/
theorem reset_round_spec (s : RoomState) :
    (reset_round s).1 =
      { s with
        currentBid := 0
        leadingTeamId := none
        currentPlayerId := none
        status := Status.IDLE } ∧
    (reset_round s).1.bidHistory = s.bidHistory ∧
    (reset_round s).2 = [Effect.auctionState (reset_round s).1] := by
  simp [reset_round]

/-- C3 counterexample: `toggle_pause` is not a no-op on an IDLE room —
it sets the status to PAUSED, and a second toggle yields ACTIVE, so two
toggles do not return an IDLE room to IDLE. -/
theorem toggle_pause_idle_not_noop :
    initialRoomState.status = Status.IDLE ∧
    (toggle_pause initialRoomState).1.status = Status.PAUSED ∧
    (toggle_pause (toggle_pause initialRoomState).1).1.status = Status.ACTIVE := by
  decide

/-- C3 (amended): `toggle_pause` sets the status to ACTIVE when it is
PAUSED and to PAUSED otherwise (so from IDLE, SOLD or UNSOLD it moves to
PAUSED rather than being a no-op), changing no other field; applying it
twice restores the whole state when the starting status is ACTIVE or
PAUSED. -/
theorem toggle_pause_spec (s : RoomState) :
    ((toggle_pause s).1 =
      { s with
        status := if s.status = Status.PAUSED then Status.ACTIVE else Status.PAUSED }) ∧
    (s.status = Status.ACTIVE ∨ s.status = Status.PAUSED →
      (toggle_pause (toggle_pause s).1).1 = s) := by
  obtain ⟨cb, lt, cp, st, hist⟩ := s
  constructor
  · simp [toggle_pause]
  · rintro (h | h) <;> simp_all [toggle_pause]

/-- Witness for `toggle_pause_spec` at the concrete ACTIVE room. -/
theorem toggle_pause_spec_witness :
    (activeRoom.status = Status.ACTIVE ∨ activeRoom.status = Status.PAUSED) ∧
    (toggle_pause (toggle_pause activeRoom).1).1 = activeRoom :=
  ⟨Or.inl rfl, (toggle_pause_spec activeRoom).2 (Or.inl rfl)⟩

/-- C4: on an ACTIVE room, with no leader a bid with
`amount >= currentBid` is accepted (equality with the standing base
price included) and one with `amount < currentBid` is rejected; with a
leader a bid with `amount > currentBid` is accepted and one with
`amount <= currentBid` is rejected.  An accepted bid sets
`currentBid = amount`, `leadingTeamId = teamId`, pushes the previous
`(currentBid, leadingTeamId)` pair onto `bidHistory` and broadcasts;
a rejected bid changes nothing and broadcasts nothing. -/
theorem place_bid_active_validation (s : RoomState) (t : Option TeamId) (amount : Int)
    (hA : s.status = Status.ACTIVE) :
    (s.leadingTeamId = none →
      (s.currentBid ≤ amount →
        (place_bid s t amount).1.currentBid = amount ∧
        (place_bid s t amount).1.leadingTeamId = t ∧
        (place_bid s t amount).1.bidHistory =
          { bid := s.currentBid, leader := s.leadingTeamId } :: s.bidHistory ∧
        (place_bid s t amount).2 = [Effect.auctionState (place_bid s t amount).1]) ∧
      (amount < s.currentBid → place_bid s t amount = (s, []))) ∧
    (s.leadingTeamId ≠ none →
      (s.currentBid < amount →
        (place_bid s t amount).1.currentBid = amount ∧
        (place_bid s t amount).1.leadingTeamId = t ∧
        (place_bid s t amount).1.bidHistory =
          { bid := s.currentBid, leader := s.leadingTeamId } :: s.bidHistory ∧
        (place_bid s t amount).2 = [Effect.auctionState (place_bid s t amount).1]) ∧
      (amount ≤ s.currentBid → place_bid s t amount = (s, []))) := by
  obtain ⟨cb, lt, cp, st, hist⟩ := s
  cases lt with
  | none =>
      refine ⟨fun _ => ⟨fun hle => ?_, fun hlt => ?_⟩, fun hne => absurd rfl hne⟩
      · have hnot : ¬ amount < cb := not_lt.mpr hle
        simp [place_bid, acceptBid, hnot]
      · simp [place_bid, hlt]
  | some l =>
      refine ⟨fun heq => ?_, fun _ => ⟨fun hgt => ?_, fun hle => ?_⟩⟩
      · simp at heq
      · have hnot : ¬ amount ≤ cb := not_le.mpr hgt
        simp [place_bid, acceptBid, hnot]
      · simp [place_bid, hle]

/-- Witness for `place_bid_active_validation` at the concrete ACTIVE
room with a leader: a bid of 50 against a standing 100 is rejected, a
bid of 150 is accepted. -/
theorem place_bid_active_validation_witness :
    activeRoom.status = Status.ACTIVE ∧
    place_bid activeRoom (some "T") 50 = (activeRoom, []) ∧
    (place_bid activeRoom (some "T") 150).1.currentBid = 150 :=
  ⟨rfl,
   ((place_bid_active_validation activeRoom (some "T") 50 rfl).2 (by decide)).2 (by decide),
   (((place_bid_active_validation activeRoom (some "T") 150 rfl).2 (by decide)).1
     (by decide)).1⟩

/-- C5: `undo_bid` exactly inverts an accepted bid — after any accepted
`place_bid`, `undo_bid` returns the room to precisely its pre-bid state
(`currentBid`, `leadingTeamId` and `bidHistory` all restored) and
broadcasts that restored state; on an empty history `undo_bid` changes
nothing and broadcasts nothing. -/
theorem undo_bid_inverse (s : RoomState) (t : Option TeamId) (amount : Int) :
    ((place_bid s t amount).2 ≠ [] →
      undo_bid (place_bid s t amount).1 = (s, [Effect.auctionState s])) ∧
    (s.bidHistory = [] → undo_bid s = (s, [])) := by
  obtain ⟨cb, lt, cp, st, hist⟩ := s
  constructor
  · intro hacc
    cases lt with
    | none =>
        by_cases hlt : amount < cb
        · simp [place_bid, hlt] at hacc
        · simp [place_bid, acceptBid, hlt, undo_bid]
    | some l =>
        by_cases hle : amount ≤ cb
        · simp [place_bid, hle] at hacc
        · simp [place_bid, acceptBid, hle, undo_bid]
  · intro hemp
    simp only [] at hemp
    subst hemp
    simp [undo_bid]

/-- Witness for `undo_bid_inverse`: a bid of 150 on the concrete ACTIVE
room is accepted and undone back to the original room, and `undo_bid`
on the fresh room (empty history) is a no-op. -/
theorem undo_bid_inverse_witness :
    (place_bid activeRoom (some "T") 150).2 ≠ [] ∧
    undo_bid (place_bid activeRoom (some "T") 150).1 =
      (activeRoom, [Effect.auctionState activeRoom]) ∧
    undo_bid initialRoomState = (initialRoomState, []) :=
  ⟨by decide,
   (undo_bid_inverse activeRoom (some "T") 150).1 (by decide),
   (undo_bid_inverse initialRoomState none 0).2 rfl⟩

/-- C6: `sell_player` is a no-op (no state change, no broadcast, no
persistence request) when `leadingTeamId` or `currentPlayerId` is null;
when both are set it moves the room to SOLD, clears `bidHistory`,
leaves every other field unchanged, broadcasts, and issues the single
persistence request selling the player to the leader at `currentBid`. -/
theorem sell_player_spec (s : RoomState) :
    (s.leadingTeamId = none ∨ s.currentPlayerId = none → sell_player s = (s, [])) ∧
    (∀ p l, s.currentPlayerId = some p → s.leadingTeamId = some l →
      (sell_player s).1 = { s with status := Status.SOLD, bidHistory := [] } ∧
      (sell_player s).2 =
        [Effect.auctionState { s with status := Status.SOLD, bidHistory := [] },
         Effect.persistSold p l s.currentBid]) := by
  obtain ⟨cb, lt, cp, st, hist⟩ := s
  constructor
  · rintro (h | h)
    · simp only [] at h
      subst h
      cases cp <;> simp [sell_player]
    · simp only [] at h
      subst h
      simp [sell_player]
  · intro p l hp hl
    simp only [] at hp hl
    subst hp
    subst hl
    simp [sell_player]

/-- Witness for `sell_player_spec`: the fresh room (no leader) is left
untouched, and the concrete ACTIVE room with player and leader is sold. -/
theorem sell_player_spec_witness :
    sell_player initialRoomState = (initialRoomState, []) ∧
    (sell_player activeRoom).1 = { activeRoom with status := Status.SOLD, bidHistory := [] } :=
  ⟨(sell_player_spec initialRoomState).1 (Or.inl rfl),
   ((sell_player_spec activeRoom).2 "p" "A" rfl rfl).1⟩

/-- C10: with no leader, a `place_bid` carrying a null `teamId` and an
amount at or above `currentBid` is accepted like any opening bid — the
amount becomes `currentBid`, a frame is pushed and an `auction_state`
broadcast is emitted — yet `leadingTeamId` stays null, so the next bid
is again validated under the opening rule: it is accepted exactly when
its amount is at least the new `currentBid`. -/
theorem place_bid_null_team (s : RoomState) (amount : Int)
    (h0 : s.leadingTeamId = none) (h1 : s.currentBid ≤ amount) :
    (place_bid s none amount).1.currentBid = amount ∧
    (place_bid s none amount).1.leadingTeamId = none ∧
    (place_bid s none amount).1.bidHistory =
      { bid := s.currentBid, leader := none } :: s.bidHistory ∧
    (place_bid s none amount).2 = [Effect.auctionState (place_bid s none amount).1] ∧
    (∀ (t2 : Option TeamId) (amount2 : Int),
      (place_bid (place_bid s none amount).1 t2 amount2).2 ≠ [] ↔ amount ≤ amount2) := by
  obtain ⟨cb, lt, cp, st, hist⟩ := s
  simp only [] at h0 h1
  subst h0
  have hnot : ¬ amount < cb := not_lt.mpr h1
  refine ⟨by simp [place_bid, acceptBid, hnot], by simp [place_bid, acceptBid, hnot],
    by simp [place_bid, acceptBid, hnot], by simp [place_bid, acceptBid, hnot], ?_⟩
  intro t2 amount2
  by_cases h2 : amount2 < amount
  · simp [place_bid, acceptBid, hnot, h2]
  · simp [place_bid, acceptBid, hnot, h2]
    omega

/-- Witness for `place_bid_null_team`: an opening bid of 100 with a
null team on the freshly started room keeps `leadingTeamId` null. -/
theorem place_bid_null_team_witness :
    openRoom.leadingTeamId = none ∧ openRoom.currentBid ≤ 100 ∧
    (place_bid openRoom none 100).1.leadingTeamId = none :=
  ⟨rfl, by decide, (place_bid_null_team openRoom 100 rfl (by decide)).2.1⟩

/-- C7 counterexample: on the freshly started ACTIVE room (base price
100), a bid of 100 with a null `teamId` is accepted (it broadcasts),
and because the leader stays null a second bid of 100 is accepted as
well — two consecutively accepted bids with no strict increase of
`currentBid`. -/
theorem null_team_equal_bids_accepted :
    openRoom.status = Status.ACTIVE ∧
    (place_bid openRoom none 100).2 ≠ [] ∧
    (place_bid (place_bid openRoom none 100).1 none 100).2 ≠ [] ∧
    (place_bid (place_bid openRoom none 100).1 none 100).1.currentBid =
      (place_bid openRoom none 100).1.currentBid := by
  decide

/-- A single `place_bid` never lowers `currentBid`. -/
theorem place_bid_step_mono (s : RoomState) (t : Option TeamId) (amount : Int) :
    s.currentBid ≤ (place_bid s t amount).1.currentBid := by
  obtain ⟨cb, lt, cp, st, hist⟩ := s
  cases lt with
  | none =>
      by_cases hlt : amount < cb
      · simp [place_bid, hlt]
      · simp [place_bid, acceptBid, hlt]
        omega
  | some l =>
      by_cases hle : amount ≤ cb
      · simp [place_bid, hle]
      · simp [place_bid, acceptBid, hle]
        omega

/-- Once a leader exists, an accepted `place_bid` (one that broadcasts)
strictly increases `currentBid`. -/
theorem place_bid_step_strict (s : RoomState) (t : Option TeamId) (amount : Int)
    (h : s.leadingTeamId ≠ none) (hacc : (place_bid s t amount).2 ≠ []) :
    s.currentBid < (place_bid s t amount).1.currentBid := by
  obtain ⟨cb, lt, cp, st, hist⟩ := s
  cases lt with
  | none => exact absurd rfl h
  | some l =>
      by_cases hle : amount ≤ cb
      · simp [place_bid, hle] at hacc
      · simp [place_bid, acceptBid, hle]
        omega

/-- An accepted `place_bid` carrying a non-null `teamId` leaves the
room with a leader. -/
theorem place_bid_step_leader (s : RoomState) (t : TeamId) (amount : Int)
    (hacc : (place_bid s (some t) amount).2 ≠ []) :
    (place_bid s (some t) amount).1.leadingTeamId ≠ none := by
  obtain ⟨cb, lt, cp, st, hist⟩ := s
  cases lt with
  | none =>
      by_cases hlt : amount < cb
      · simp [place_bid, hlt] at hacc
      · simp [place_bid, acceptBid, hlt]
  | some l =>
      by_cases hle : amount ≤ cb
      · simp [place_bid, hle] at hacc
      · simp [place_bid, acceptBid, hle]

/-- A `place_bid` carrying a non-null `teamId` never clears the leader:
a rejected bid changes nothing and an accepted one installs `teamId`. -/
theorem place_bid_keeps_leader (s : RoomState) (t : TeamId) (amount : Int)
    (h : s.leadingTeamId ≠ none) :
    (place_bid s (some t) amount).1.leadingTeamId ≠ none := by
  obtain ⟨cb, lt, cp, st, hist⟩ := s
  cases lt with
  | none => exact absurd rfl h
  | some l =>
      by_cases hle : amount ≤ cb
      · simp [place_bid, hle]
      · simp [place_bid, acceptBid, hle]

/-- Splitting a run of bids at any point composes. -/
theorem runBids_append (s : RoomState) (l1 l2 : List (TeamId × Int)) :
    runBids s (l1 ++ l2) = runBids (runBids s l1) l2 := by
  simp [runBids, List.foldl_append]

/-- `currentBid` never decreases along a run of bids. -/
theorem runBids_mono : ∀ (bids : List (TeamId × Int)) (s : RoomState),
    s.currentBid ≤ (runBids s bids).currentBid
  | [], _ => le_refl _
  | b :: rest, s =>
      le_trans (place_bid_step_mono s (some b.1) b.2)
        (runBids_mono rest (place_bid s (some b.1) b.2).1)

/-- A run of non-null-team bids never clears an existing leader. -/
theorem runBids_keeps_leader : ∀ (bids : List (TeamId × Int)) (s : RoomState),
    s.leadingTeamId ≠ none → (runBids s bids).leadingTeamId ≠ none
  | [], _, h => h
  | b :: rest, s, h =>
      runBids_keeps_leader rest (place_bid s (some b.1) b.2).1
        (place_bid_keeps_leader s b.1 b.2 h)

/-- Once some bid of a run of non-null-team bids has been accepted, the
room has a leader from that point on. -/
theorem acceptedDuring_leader : ∀ (bids : List (TeamId × Int)) (s : RoomState),
    acceptedDuring s bids = true → (runBids s bids).leadingTeamId ≠ none := by
  intro bids
  induction bids with
  | nil => intro s h; simp [acceptedDuring] at h
  | cons b rest ih =>
      intro s h
      rcases Bool.or_eq_true_iff.mp h with hacc | hrest
      · exact runBids_keeps_leader rest (place_bid s (some b.1) b.2).1
          (place_bid_step_leader s b.1 b.2 (of_decide_eq_true hacc))
      · exact ih (place_bid s (some b.1) b.2).1 hrest

/-- C7 (amended): across any sequence of `place_bid` calls carrying
non-null `teamId`s, `currentBid` is non-decreasing — at every cut point
of the run, the bid standing there is no larger than after any further
bids — and strictly increasing on every accepted bid after the first
accepted one: whenever some bid of the prefix `pre` was accepted, a
subsequently accepted bid `b` (acceptance observable as its broadcast)
strictly raises `currentBid`. -/
theorem place_bid_run_monotone (s : RoomState) (pre post : List (TeamId × Int))
    (b : TeamId × Int) :
    (runBids s pre).currentBid ≤ (runBids s (pre ++ post)).currentBid ∧
    (acceptedDuring s pre = true →
      (place_bid (runBids s pre) (some b.1) b.2).2 ≠ [] →
      (runBids s pre).currentBid <
        (place_bid (runBids s pre) (some b.1) b.2).1.currentBid) := by
  constructor
  · rw [runBids_append]
    exact runBids_mono post (runBids s pre)
  · intro hpre hb
    exact place_bid_step_strict (runBids s pre) (some b.1) b.2
      (acceptedDuring_leader pre s hpre) hb

/-- Witness for `place_bid_run_monotone`: starting the round at 100, the
prefix run accepting the bid ("A", 100) installs a leader, and the next
accepted bid ("B", 150) strictly raises `currentBid`. -/
theorem place_bid_run_monotone_witness :
    acceptedDuring openRoom [("A", 100)] = true ∧
    (place_bid (runBids openRoom [("A", 100)]) (some "B") 150).2 ≠ [] ∧
    (runBids openRoom [("A", 100)]).currentBid <
      (place_bid (runBids openRoom [("A", 100)]) (some "B") 150).1.currentBid :=
  ⟨by decide, by decide,
   (place_bid_run_monotone openRoom [("A", 100)] [] ("B", 150)).2
     (by decide) (by decide)⟩

/-- An action tagged with one auction identifier reads and writes only
that identifier's entry of the registry. -/
theorem applyTagged_other (rooms : Registry) (A : AuctionId) (a : Action)
    (B : AuctionId) (h : B ≠ A) : applyTagged rooms A a B = rooms B := by
  simp [applyTagged, h]

/-- A sequence of tagged actions none of which is tagged with `B`
leaves room `B` untouched. -/
theorem runTagged_other (acts : List (AuctionId × Action)) (rooms : Registry)
    (B : AuctionId) (h : ∀ p ∈ acts, p.1 ≠ B) : runTagged rooms acts B = rooms B := by
  induction acts generalizing rooms with
  | nil => rfl
  | cons p rest ih =>
      obtain ⟨id, a⟩ := p
      calc runTagged rooms ((id, a) :: rest) B
          = runTagged (applyTagged rooms id a) rest B := rfl
        _ = applyTagged rooms id a B :=
            ih (applyTagged rooms id a) (fun q hq => h q (List.mem_cons_of_mem _ hq))
        _ = rooms B :=
            applyTagged_other rooms id a B
              (Ne.symm (h (id, a) (List.mem_cons_self _ _)))

/-- C8: rooms are isolated.  For distinct auction identifiers `A` and
`B`, any action tagged `A` leaves room `B`'s state (as resolved by
`getRoomState`, hence its `currentBid` and `leadingTeamId`) completely
unchanged, and so does any interleaved run of actions all tagged `A`. -/
theorem rooms_isolated (rooms : Registry) (A B : AuctionId) (a : Action)
    (h : A ≠ B) :
    getRoomState (applyTagged rooms A a) B = getRoomState rooms B ∧
    (∀ acts : List (AuctionId × Action), (∀ p ∈ acts, p.1 = A) →
      runTagged rooms acts B = rooms B) := by
  refine ⟨applyTagged_other rooms A a B (Ne.symm h), fun acts hall => ?_⟩
  exact runTagged_other acts rooms B (fun p hp => by rw [hall p hp]; exact h)

/-- Witness for `rooms_isolated`: a bid tagged "A" leaves room "B" of
the fresh registry untouched. -/
theorem rooms_isolated_witness :
    ("A" : AuctionId) ≠ "B" ∧
    getRoomState (applyTagged emptyRegistry "A" (Action.place_bid (some "T") 5)) "B" =
      getRoomState emptyRegistry "B" :=
  ⟨by decide,
   (rooms_isolated emptyRegistry "A" "B" (Action.place_bid (some "T") 5) (by decide)).1⟩

/-- The inductive invariant for C9: the standing bid and every bid held
in an undo frame are non-negative. -/
def NonnegState (s : RoomState) : Prop :=
  0 ≤ s.currentBid ∧ ∀ f ∈ s.bidHistory, 0 ≤ f.bid

/-- Every handler preserves `NonnegState` when the action's monetary
input (if any) is non-negative. -/
theorem nonneg_preserved (s : RoomState) (a : Action)
    (hs : NonnegState s) (ha : a.nonnegInputs = true) :
    NonnegState (applyAction s a).1 := by
  obtain ⟨cb, lt, cp, st, hist⟩ := s
  obtain ⟨h0, hh⟩ := hs
  cases a with
  | start_player p b =>
      simp only [Action.nonnegInputs, decide_eq_true_eq] at ha
      exact ⟨ha, by simp [applyAction, start_player]⟩
  | place_bid t amt =>
      simp only [Action.nonnegInputs, decide_eq_true_eq] at ha
      cases lt with
      | none =>
          by_cases hlt : amt < cb
          · simpa [applyAction, place_bid, hlt, NonnegState] using ⟨h0, hh⟩
          · simp only [applyAction, place_bid, acceptBid, if_neg hlt, NonnegState]
            refine ⟨ha, fun f hf => ?_⟩
            rcases List.mem_cons.mp hf with hf | hf
            · rw [hf]
              exact h0
            · exact hh f hf
      | some l =>
          by_cases hle : amt ≤ cb
          · simpa [applyAction, place_bid, hle, NonnegState] using ⟨h0, hh⟩
          · simp only [applyAction, place_bid, acceptBid, if_neg hle, NonnegState]
            refine ⟨ha, fun f hf => ?_⟩
            rcases List.mem_cons.mp hf with hf | hf
            · rw [hf]
              exact h0
            · exact hh f hf
  | undo_bid =>
      cases hist with
      | nil => exact ⟨h0, hh⟩
      | cons f rest =>
          refine ⟨hh f (List.mem_cons_self _ _), fun g hg => ?_⟩
          simp [applyAction, undo_bid] at hg
          exact hh g (List.mem_cons_of_mem _ hg)
  | toggle_pause => exact ⟨h0, hh⟩
  | sell_player =>
      cases cp <;> cases lt
      · exact ⟨h0, hh⟩
      · exact ⟨h0, hh⟩
      · exact ⟨h0, hh⟩
      · exact ⟨h0, by simp [applyAction, sell_player]⟩
  | unsell_player =>
      cases cp
      · exact ⟨h0, hh⟩
      · exact ⟨h0, hh⟩
  | reset_round => exact ⟨by simp [applyAction, reset_round], hh⟩

/-- `NonnegState` along any run of actions with non-negative inputs. -/
theorem runActions_nonneg : ∀ (acts : List Action) (s : RoomState),
    NonnegState s → (∀ a ∈ acts, a.nonnegInputs = true) →
    NonnegState (runActions s acts)
  | [], _, hs, _ => hs
  | a :: rest, s, hs, hall =>
      runActions_nonneg rest (applyAction s a).1
        (nonneg_preserved s a hs (hall a (List.mem_cons_self _ _)))
        (fun b hb => hall b (List.mem_cons_of_mem _ hb))

/-- C9: assuming every monetary input is non-negative (`basePrice` in
`start_player`, `amount` in `place_bid`), `currentBid >= 0` holds in
the baseline room state and after every sequence of engine actions
applied to it. -/
theorem currentBid_nonneg :
    0 ≤ initialRoomState.currentBid ∧
    ∀ acts : List Action, (∀ a ∈ acts, a.nonnegInputs = true) →
      0 ≤ (runActions initialRoomState acts).currentBid := by
  constructor
  · decide
  · intro acts hall
    exact (runActions_nonneg acts initialRoomState
      ⟨by decide, by simp [initialRoomState]⟩ hall).1

/-- Witness for `currentBid_nonneg` on a concrete run: start at 100,
bid 150, undo. -/
theorem currentBid_nonneg_witness :
    0 ≤ (runActions initialRoomState
      [Action.start_player "p" 100, Action.place_bid (some "T") 150,
       Action.undo_bid]).currentBid :=
  currentBid_nonneg.2
    [Action.start_player "p" 100, Action.place_bid (some "T") 150, Action.undo_bid]
    (by decide)

end AuctionSystem
